import Mathlib

/-!
Verification of the document segmentation and relevance-ranking pipeline
in `src/main.py`.

Strings are modelled as `List Char` (the pipeline only manipulates plain
character sequences).  Python string primitives (`strip`, `split`,
`isupper`, the three `re.match` patterns, `' '.join`, slicing,
`re.sub(r'\s+', ' ', ...)`) are given executable embeddings below,
restricted to ASCII whitespace and ASCII letter classes, which is the
alphabet the heuristics in the source are written against.

The external collaborators (PyMuPDF page extraction and the
SentenceTransformer encoder) are out of scope per the design document:
the ranking logic is embedded as a function of the similarity scores the
encoder would return (one rational score per section), and the encoder
interaction of `find_relevant_sections` is modelled separately as an
explicit event trace.
-/

namespace PDFAnalyzer

/-- ASCII whitespace, as recognised by Python `str.strip`, `str.split`
and the regex class `\s` on ASCII input. -/
def isWs (c : Char) : Bool :=
  c == ' ' || c == '\t' || c == '\n' || c == '\r' || c == '\x0b' || c == '\x0c'

/-- ASCII lower-case letter. -/
def isLowerAscii (c : Char) : Bool := 'a' ≤ c && c ≤ 'z'

/-- ASCII upper-case letter, the regex class `[A-Z]`. -/
def isUpperAscii (c : Char) : Bool := 'A' ≤ c && c ≤ 'Z'

/-- ASCII cased character (a letter). -/
def isCased (c : Char) : Bool := isLowerAscii c || isUpperAscii c

/-- ASCII digit, the regex class `\d` on ASCII input. -/
def isDigitChar (c : Char) : Bool := '0' ≤ c && c ≤ '9'

/-- Python `str.strip()`: remove leading and trailing whitespace. -/
def pyStrip (s : List Char) : List Char :=
  ((s.dropWhile isWs).reverse.dropWhile isWs).reverse

/-- Python `str.split(sep)` for a single-character separator: split at
every occurrence, keeping empty fields. -/
def splitOnChar (sep : Char) : List Char → List (List Char)
  | [] => [[]]
  | c :: rest =>
    if c = sep then [] :: splitOnChar sep rest
    else
      match splitOnChar sep rest with
      | [] => [[c]]
      | p :: ps => (c :: p) :: ps

/-- Python `text.split(sep)` for the two-character separator used by the
source, scanning left to right over non-overlapping occurrences. -/
def splitOnDoubleNewline : List Char → List (List Char)
  | [] => [[]]
  | '\n' :: '\n' :: rest => [] :: splitOnDoubleNewline rest
  | c :: rest =>
    match splitOnDoubleNewline rest with
    | [] => [[c]]
    | p :: ps => (c :: p) :: ps

/-- Helper for `pyWords`: accumulates the current word (reversed). -/
def wordsAux : List Char → List Char → List (List Char)
  | [], cur => if cur = [] then [] else [cur.reverse]
  | c :: rest, cur =>
    if isWs c then
      if cur = [] then wordsAux rest [] else cur.reverse :: wordsAux rest []
    else wordsAux rest (c :: cur)

/-- Python `str.split()` with no argument: split on runs of whitespace,
discarding empty fields. -/
def pyWords (s : List Char) : List (List Char) := wordsAux s []

/-- Python `' '.join(ws)`. -/
def joinSpace : List (List Char) → List Char
  | [] => []
  | [w] => w
  | w :: ws => w ++ ' ' :: joinSpace ws

/-- Python `re.sub(r'\s+', ' ', s)`: every maximal run of whitespace is
replaced by a single space. -/
def collapseWs : List Char → List Char
  | [] => []
  | c :: rest =>
    if isWs c then ' ' :: collapseWs (rest.dropWhile isWs)
    else c :: collapseWs rest
termination_by s => s.length
decreasing_by
  · exact Nat.lt_succ_of_le ((List.dropWhile_sublist _).length_le)
  · exact Nat.lt_succ_of_le (Nat.le_refl _)

/-- Python `str.isupper()` on ASCII input: at least one cased character
and no lower-case cased character. -/
def pyIsUpper (s : List Char) : Bool :=
  s.any isCased && s.all fun c => !isCased c || isUpperAscii c

/-- The regex `^[A-Z][^.!?]$`-style sentence punctuation class. -/
def isSentencePunct (c : Char) : Bool := c == '.' || c == '!' || c == '?'

/-- Python `re.match(r'^[A-Z][^.!?]*[^.!?]$', line)`: first character is
an upper-case letter and the (non-empty) remainder contains no sentence
punctuation, with the last character also not sentence punctuation. -/
def titleCasePattern : List Char → Bool
  | [] => false
  | c :: rest => isUpperAscii c && !rest.isEmpty && rest.all fun x => !isSentencePunct x

/-- Python `line.endswith(':')`. -/
def endsWithColon (s : List Char) : Bool := s.getLast? == some ':'

/-- Python `re.match(r'^\d+[\.\)]\s*[A-Z]', line)`. -/
def numberedPattern (s : List Char) : Bool :=
  let ds := s.takeWhile isDigitChar
  let rest := s.dropWhile isDigitChar
  !ds.isEmpty &&
    match rest with
    | [] => false
    | b :: rest2 =>
      (b == '.' || b == ')') &&
        match rest2.dropWhile isWs with
        | [] => false
        | u :: _ => isUpperAscii u

/-- Python `re.match(r'^[•\-\*]\s*[A-Z]', line)`. -/
def bulletPattern : List Char → Bool
  | [] => false
  | b :: rest =>
    (b == '•' || b == '-' || b == '*') &&
      match rest.dropWhile isWs with
      | [] => false
      | u :: _ => isUpperAscii u

/-- The heading classifier of `extract_sections_from_text`
(src/main.py lines 171-190): the first-match-wins `elif` chain, gated by
`len(line) < Config.MAX_HEADING_LENGTH`.  The two configuration values
read by the source (`MAX_HEADING_LENGTH`, `MAX_HEADING_WORDS`) are
passed explicitly. -/
def is_heading (maxHeadingLength maxHeadingWords : Nat) (line : List Char) : Bool :=
  if line.length < maxHeadingLength then
    if pyIsUpper line = true ∧ 3 < line.length then true
    else if titleCasePattern line = true ∧ (pyWords line).length ≤ maxHeadingWords then true
    else if endsWithColon line = true ∧ (pyWords line).length ≤ 8 then true
    else if numberedPattern line = true then true
    else if bulletPattern line = true ∧ (pyWords line).length ≤ 8 then true
    else false
  else false

/-- The heading classifier as the specification describes it: an
unordered disjunction of the five pattern criteria under the common
line-length gate. -/
def headingSpec (maxHeadingLength maxHeadingWords : Nat) (line : List Char) : Prop :=
  line.length < maxHeadingLength ∧
    ((pyIsUpper line = true ∧ 3 < line.length) ∨
      (titleCasePattern line = true ∧ (pyWords line).length ≤ maxHeadingWords) ∨
      (endsWithColon line = true ∧ (pyWords line).length ≤ 8) ∨
      numberedPattern line = true ∨
      (bulletPattern line = true ∧ (pyWords line).length ≤ 8))

/-- A section record as produced by `extract_sections_from_text`
(a Python dict with keys `title`, `content`, `page_number`). -/
structure Section where
  title : List Char
  content : List Char
  page_number : Nat
deriving DecidableEq, Repr

/-- The ellipsis marker `'...'` appended to truncated fallback titles. -/
def ellipsis : List Char := ['.', '.', '.']

/-- The flush step of the heading-driven strategy: the accumulated
section is emitted only if a title exists, the content buffer is
non-empty, and the stripped content reaches `minLen`
(src/main.py lines 193-199 and 206-212). -/
def flushSection (minLen page : Nat) (title cur : List Char) : List Section :=
  if title ≠ [] ∧ cur ≠ [] ∧ minLen ≤ (pyStrip cur).length then
    [⟨title, pyStrip cur, page⟩]
  else []

/-- The line loop of the heading-driven strategy (src/main.py lines
166-212): lines are stripped, empty lines skipped, heading lines start
a new accumulator after flushing the previous one, other lines are
appended to the content buffer followed by a single space.  The final
open section is flushed after the last line. -/
def headingLoop (maxHeadingLength maxHeadingWords minLen page : Nat) :
    List (List Char) → List Char → List Char → List Section
  | [], title, cur => flushSection minLen page title cur
  | l :: rest, title, cur =>
    let line := pyStrip l
    if line = [] then
      headingLoop maxHeadingLength maxHeadingWords minLen page rest title cur
    else if is_heading maxHeadingLength maxHeadingWords line = true then
      flushSection minLen page title cur ++
        headingLoop maxHeadingLength maxHeadingWords minLen page rest line []
    else
      headingLoop maxHeadingLength maxHeadingWords minLen page rest title (cur ++ line ++ [' '])

/-- `[p.strip() for p in text.split('\n\n') if p.strip()]`
(src/main.py line 159). -/
def paragraphsOf (text : List Char) : List (List Char) :=
  ((splitOnDoubleNewline text).map pyStrip).filter (· ≠ [])

/-- Strategy 3 (src/main.py lines 215-225): each paragraph reaching
`minLen` becomes a section titled by its first 8 words, with an
ellipsis marker exactly when the paragraph has more than 8 words. -/
def paraSections (minLen page : Nat) (paragraphs : List (List Char)) : List Section :=
  paragraphs.filterMap fun p =>
    if minLen ≤ p.length then
      some ⟨joinSpace ((pyWords p).take 8) ++ (if 8 < (pyWords p).length then ellipsis else []),
        p, page⟩
    else none

/-- Strategy 4 (src/main.py lines 228-235): one whole-page section when
the stripped page text reaches `minLen`, titled by its first 10 words
with an ellipsis marker when truncated. -/
def wholePageSection (minLen page : Nat) (text : List Char) : List Section :=
  if minLen ≤ (pyStrip text).length then
    [⟨joinSpace ((pyWords (pyStrip text)).take 10) ++
        (if 10 < (pyWords (pyStrip text)).length then ellipsis else []),
      pyStrip text, page⟩]
  else []

/-- `extract_sections_from_text` (src/main.py lines 146-237): the
heading-driven strategy, then the paragraph strategy when it produced
nothing, then the whole-page fallback when both produced nothing.  The
two configuration values read by the classifier are passed explicitly. -/
def extract_sections_from_text (maxHeadingLength maxHeadingWords : Nat)
    (text : List Char) (page minLen : Nat) : List Section :=
  let paragraphs := paragraphsOf text
  let sections1 :=
    headingLoop maxHeadingLength maxHeadingWords minLen page (splitOnChar '\n' text) [] []
  let sections2 :=
    if sections1 = [] ∧ paragraphs ≠ [] then sections1 ++ paraSections minLen page paragraphs
    else sections1
  if sections2 = [] then sections2 ++ wholePageSection minLen page text
  else sections2

/-- A section dict after the Document Loader tagged it with the owning
document (src/main.py line 259). -/
structure DocSection where
  title : List Char
  content : List Char
  page_number : Nat
  document : List Char
deriving DecidableEq, Repr

/-- A scored section dict built by `find_relevant_sections`
(src/main.py lines 301-305): the section, its cosine similarity
(modelled as a rational), and its original pool index. -/
structure ScoredSection where
  sec : DocSection
  similarity : ℚ
  index : Nat
deriving DecidableEq, Repr

/-- The filtering loop of `find_relevant_sections` (src/main.py lines
297-305): `for i, (section, similarity) in enumerate(zip(sections,
similarities))`, keeping pairs with `similarity >= min_similarity`. -/
def buildScored (minSim : ℚ) : Nat → List (DocSection × ℚ) → List ScoredSection
  | _, [] => []
  | i, (s, sim) :: rest =>
    if minSim ≤ sim then ⟨s, sim, i⟩ :: buildScored minSim (i + 1) rest
    else buildScored minSim (i + 1) rest

/-- The comparator of `scored_sections.sort(key=lambda x:
x['similarity'], reverse=True)`: descending by similarity; the sort
itself is stable, which `List.mergeSort` also is. -/
def simDesc (a b : ScoredSection) : Bool := decide (b.similarity ≤ a.similarity)

/-- `f"{section['title']} {section['content']}"` (src/main.py line 286). -/
def combinedText (s : DocSection) : List Char := s.title ++ ' ' :: s.content

/-- `find_relevant_sections` (src/main.py lines 266-309), with the
external encoder abstracted: `sims` is the list of cosine similarities
the encoder would produce, one per section, so that section `i` is
paired with `sims[i]` exactly as `zip(sections, similarities)` does.
The `task` string only feeds the encoder and does not otherwise affect
the result. -/
def find_relevant_sections (task : List Char) (sections : List DocSection)
    (sims : List ℚ) (topN : Nat) (minSim : ℚ) : List ScoredSection :=
  if sections = [] then []
  else ((buildScored minSim 0 (sections.zip sims)).mergeSort simDesc).take topN

/-- Encoder interaction events of `find_relevant_sections`. -/
inductive EncoderEvent
  | modelLoad (modelName : List Char)
  | encodeOne (text : List Char)
  | encodeBatch (texts : List (List Char))
deriving DecidableEq, Repr

/-- The encoder interaction of `find_relevant_sections` in program
order: `SentenceTransformer(model_name)` is constructed first
(src/main.py line 277), before the empty-pool check (line 279); the two
`encode` calls (lines 290-291) happen only on a non-empty pool. -/
def find_relevant_sections_events (modelName task : List Char)
    (sections : List DocSection) : List EncoderEvent :=
  EncoderEvent.modelLoad modelName ::
    (if sections = [] then []
     else [EncoderEvent.encodeOne task, EncoderEvent.encodeBatch (sections.map combinedText)])

/-- One entry of the input `documents` list. -/
structure InputDoc where
  filename : List Char
  title : List Char
deriving DecidableEq, Repr

/-- The input configuration consumed by `create_output_json`. -/
structure InputData where
  documents : List InputDoc
  persona_role : List Char
  task : List Char
  description : Option (List Char)
deriving DecidableEq, Repr

/-- The `metadata` object of the report; the timestamp is supplied by
the caller (the source reads the wall clock). -/
structure Metadata where
  input_documents : List (List Char)
  persona : List Char
  job_to_be_done : List Char
  processing_timestamp : List Char
  description : Option (List Char)
deriving DecidableEq, Repr

/-- One entry of `extracted_sections` (src/main.py lines 331-336). -/
structure ExtractedEntry where
  document : List Char
  section_title : List Char
  importance_rank : Nat
  page_number : Nat
deriving DecidableEq, Repr

/-- One entry of `subsection_analysis` (src/main.py lines 347-351). -/
structure AnalysisEntry where
  document : List Char
  refined_text : List Char
  page_number : Nat
deriving DecidableEq, Repr

/-- The report structure returned by `create_output_json`. -/
structure Report where
  metadata : Metadata
  extracted_sections : List ExtractedEntry
  subsection_analysis : List AnalysisEntry
deriving DecidableEq, Repr

/-- The refined-text transform (src/main.py lines 343-345):
`section['content'][:maxRefinedLength].strip()` followed by
`re.sub(r'\s+', ' ', ...)`.  The configuration value
`Config.MAX_REFINED_TEXT_LENGTH` read by the source is passed
explicitly. -/
def refinedTransform (maxRefinedLength : Nat) (content : List Char) : List Char :=
  collapseWs (pyStrip (content.take maxRefinedLength))

/-- `create_output_json` (src/main.py lines 311-357).  The timestamp
parameter stands for `datetime.now().isoformat()`. -/
def create_output_json (maxRefinedLength : Nat) (input : InputData)
    (relevant : List ScoredSection) (now : List Char) : Report :=
  { metadata :=
      { input_documents := input.documents.map (·.filename)
        persona := input.persona_role
        job_to_be_done := input.task
        processing_timestamp := now
        description := input.description }
    extracted_sections :=
      relevant.enum.map fun p =>
        { document := p.2.sec.document
          section_title := p.2.sec.title
          importance_rank := p.1 + 1
          page_number := p.2.sec.page_number }
    subsection_analysis :=
      relevant.map fun item =>
        { document := item.sec.document
          refined_text := refinedTransform maxRefinedLength item.sec.content
          page_number := item.sec.page_number } }

/-- `Config.MIN_SECTION_LENGTH` (src/main.py line 21). -/
def MIN_SECTION_LENGTH : Nat := 50

/-- `Config.MAX_REFINED_TEXT_LENGTH` (src/main.py line 22). -/
def MAX_REFINED_TEXT_LENGTH : Nat := 1000

/-- `Config.TOP_N_SECTIONS` (src/main.py line 26). -/
def TOP_N_SECTIONS : Nat := 5

/-- `Config.MIN_SIMILARITY_THRESHOLD` (src/main.py line 27), as an
exact rational. -/
def MIN_SIMILARITY_THRESHOLD : ℚ := 1 / 10

/-- `Config.MAX_HEADING_LENGTH` (src/main.py line 30). -/
def MAX_HEADING_LENGTH : Nat := 200

/-- `Config.MAX_HEADING_WORDS` (src/main.py line 31). -/
def MAX_HEADING_WORDS : Nat := 10

end PDFAnalyzer

namespace PDFAnalyzer

/-- The head of `dropWhile p` does not satisfy `p`. -/
theorem head?_dropWhile_false {p : Char → Bool} {s : List Char} {c : Char}
    (h : (s.dropWhile p).head? = some c) : p c = false := by
  have hm := List.head?_dropWhile_not p s
  rw [h] at hm
  exact hm

/-- When `dropWhile p` keeps anything, it keeps the last element. -/
theorem getLast?_dropWhile_of_ne_nil {p : Char → Bool} {s : List Char}
    (h : s.dropWhile p ≠ []) : (s.dropWhile p).getLast? = s.getLast? := by
  obtain ⟨t, ht⟩ := List.dropWhile_suffix (l := s) p
  conv_rhs => rw [← ht]
  rw [List.getLast?_append]
  obtain ⟨c, hc⟩ := Option.isSome_iff_exists.mp (List.getLast?_isSome.mpr h)
  rw [hc]
  rfl

/-- The first character of a stripped string is not whitespace. -/
theorem pyStrip_head_not_ws {s : List Char} {c : Char}
    (h : (pyStrip s).head? = some c) : isWs c = false := by
  unfold pyStrip at h
  rw [List.head?_reverse] at h
  have hne : (s.dropWhile isWs).reverse.dropWhile isWs ≠ [] := by
    intro hnil
    rw [hnil] at h
    exact Option.noConfusion h
  rw [getLast?_dropWhile_of_ne_nil hne, List.getLast?_reverse] at h
  exact head?_dropWhile_false h

/-- The last character of a stripped string is not whitespace. -/
theorem pyStrip_getLast_not_ws {s : List Char} {c : Char}
    (h : (pyStrip s).getLast? = some c) : isWs c = false := by
  unfold pyStrip at h
  rw [List.getLast?_reverse] at h
  exact head?_dropWhile_false h

/-- Stripping a string whose ends are not whitespace is the identity. -/
theorem pyStrip_eq_self {s : List Char}
    (h1 : ∀ c, s.head? = some c → isWs c = false)
    (h2 : ∀ c, s.getLast? = some c → isWs c = false) : pyStrip s = s := by
  unfold pyStrip
  have hd : s.dropWhile isWs = s := by
    cases s with
    | nil => rfl
    | cons a t => exact List.dropWhile_cons_of_neg (by simp [h1 a rfl])
  rw [hd]
  have hr : s.reverse.dropWhile isWs = s.reverse := by
    cases hrev : s.reverse with
    | nil => rfl
    | cons b u =>
      have hb : s.getLast? = some b := by
        rw [← List.head?_reverse, hrev]
        rfl
      rw [← hrev]
      rw [hrev]
      exact List.dropWhile_cons_of_neg (by simp [h2 b hb])
  rw [hr, List.reverse_reverse]

/-- `str.strip()` is idempotent. -/
theorem pyStrip_idem (s : List Char) : pyStrip (pyStrip s) = pyStrip s :=
  pyStrip_eq_self (fun _ h => pyStrip_head_not_ws h) (fun _ h => pyStrip_getLast_not_ws h)

/-- Whitespace collapsing keeps a non-whitespace first character. -/
theorem collapseWs_head {s : List Char} {c : Char}
    (h : s.head? = some c) (hc : isWs c = false) : (collapseWs s).head? = some c := by
  cases s with
  | nil => exact Option.noConfusion h
  | cons a t =>
    have ha : a = c := by
      simpa using h
    subst ha
    rw [collapseWs]
    rw [if_neg (by simp [hc])]
    rfl

/-- Whitespace collapsing keeps a non-whitespace last character. -/
theorem collapseWs_getLast {s : List Char} {c : Char}
    (h : s.getLast? = some c) (hc : isWs c = false) : (collapseWs s).getLast? = some c := by
  induction s using collapseWs.induct with
  | case1 => exact Option.noConfusion h
  | case2 a t hws ih =>
    have ht : t ≠ [] := by
      rintro rfl
      simp at h
      subst h
      rw [hws] at hc
      exact Bool.noConfusion hc
    have hlast : t.getLast? = some c := by
      cases t with
      | nil => exact absurd rfl ht
      | cons b u => rwa [List.getLast?_cons_cons] at h
    have hdw : t.dropWhile isWs ≠ [] := by
      intro hnil
      have hall := List.dropWhile_eq_nil_iff.mp hnil
      have hcmem : c ∈ t := List.mem_of_getLast?_eq_some hlast
      rw [hall c hcmem] at hc
      exact Bool.noConfusion hc
    have hlast2 : (t.dropWhile isWs).getLast? = some c := by
      rw [getLast?_dropWhile_of_ne_nil hdw]
      exact hlast
    have hres := ih hlast2
    rw [collapseWs, if_pos hws]
    cases hcol : collapseWs (t.dropWhile isWs) with
    | nil =>
      rw [hcol] at hres
      exact Option.noConfusion hres
    | cons x y =>
      rw [hcol] at hres
      rw [List.getLast?_cons_cons]
      exact hres
  | case3 a t hws ih =>
    rw [collapseWs, if_neg hws]
    cases t with
    | nil =>
      have hac : a = c := by simpa using h
      subst hac
      simp [collapseWs]
    | cons b u =>
      rw [List.getLast?_cons_cons] at h
      have hres := ih h
      cases hcol : collapseWs (b :: u) with
      | nil =>
        rw [hcol] at hres
        exact Option.noConfusion hres
      | cons x y =>
        rw [hcol] at hres
        rw [List.getLast?_cons_cons]
        exact hres

/-- Sections emitted by the flush step meet the minimum length. -/
theorem flushSection_min {minLen page : Nat} {title cur : List Char} {sec : Section}
    (h : sec ∈ flushSection minLen page title cur) :
    minLen ≤ (pyStrip sec.content).length := by
  unfold flushSection at h
  split at h
  · rename_i hcond
    simp only [List.mem_singleton] at h
    subst h
    simpa [pyStrip_idem] using hcond.2.2
  · simp at h

/-- Sections emitted by the heading-driven line loop meet the minimum
length, for every accumulator state. -/
theorem headingLoop_min {maxHL maxHW minLen page : Nat} :
    ∀ {lines : List (List Char)} {title cur : List Char} {sec : Section},
      sec ∈ headingLoop maxHL maxHW minLen page lines title cur →
      minLen ≤ (pyStrip sec.content).length := by
  intro lines
  induction lines with
  | nil =>
    intro title cur sec h
    exact flushSection_min h
  | cons l rest ih =>
    intro title cur sec h
    simp only [headingLoop] at h
    split_ifs at h with h1 h2
    · exact ih h
    · rcases List.mem_append.mp h with hm | hm
      · exact flushSection_min hm
      · exact ih hm
    · exact ih h

/-- Members of `paraSections` come from a qualifying paragraph, with
the title synthesized from its first 8 words. -/
theorem paraSections_min {minLen page : Nat} {ps : List (List Char)} {sec : Section}
    (h : sec ∈ paraSections minLen page ps) :
    ∃ p ∈ ps, minLen ≤ p.length ∧ sec.content = p ∧
      sec.title = joinSpace ((pyWords p).take 8) ++
        (if 8 < (pyWords p).length then ellipsis else []) := by
  unfold paraSections at h
  rcases List.mem_filterMap.mp h with ⟨p, hp, hf⟩
  by_cases hlen : minLen ≤ p.length
  · rw [if_pos hlen] at hf
    obtain rfl := Option.some.inj hf
    exact ⟨p, hp, hlen, rfl, rfl⟩
  · rw [if_neg hlen] at hf
    exact Option.noConfusion hf

/-- Every paragraph in the pool is already stripped. -/
theorem paragraphsOf_stripped {text p : List Char}
    (h : p ∈ paragraphsOf text) : pyStrip p = p := by
  unfold paragraphsOf at h
  have hm := (List.mem_filter.mp h).1
  rcases List.mem_map.mp hm with ⟨q, _, rfl⟩
  exact pyStrip_idem q

/-- The whole-page fallback emits stripped page text meeting the
minimum length. -/
theorem wholePageSection_min {minLen page : Nat} {text : List Char} {sec : Section}
    (h : sec ∈ wholePageSection minLen page text) :
    minLen ≤ (pyStrip sec.content).length ∧ sec.content = pyStrip text := by
  unfold wholePageSection at h
  split at h
  · rename_i hc
    simp only [List.mem_singleton] at h
    subst h
    exact ⟨by simpa [pyStrip_idem] using hc, rfl⟩
  · simp at h

/-- C9: the first-match-wins heading classifier is extensionally equal
to the unordered disjunction of its five criteria under the common
length gate, so the evaluation order of the criteria does not affect
classification. -/
theorem heading_first_match_iff_disjunction
    (maxHeadingLength maxHeadingWords : Nat) (line : List Char) :
    is_heading maxHeadingLength maxHeadingWords line = true ↔
      headingSpec maxHeadingLength maxHeadingWords line := by
  unfold is_heading headingSpec
  split_ifs <;> simp_all

/-- C3: every `Section` emitted by `extract_sections_from_text`,
regardless of which of the strategies produced it, has content whose
trimmed length is at least `minLen`. -/
theorem extract_sections_min_length
    (maxHL maxHW : Nat) (text : List Char) (page minLen : Nat) :
    ∀ sec ∈ extract_sections_from_text maxHL maxHW text page minLen,
      minLen ≤ (pyStrip sec.content).length := by
  intro sec h
  have hpara : ∀ {s : Section}, s ∈ paraSections minLen page (paragraphsOf text) →
      minLen ≤ (pyStrip s.content).length := by
    intro s hs
    obtain ⟨p, hp, hlen, hc, -⟩ := paraSections_min hs
    rw [hc, paragraphsOf_stripped hp]
    exact hlen
  simp only [extract_sections_from_text] at h
  split_ifs at h <;>
    (try rcases List.mem_append.mp h with h | h) <;>
    (try rcases List.mem_append.mp h with h | h) <;>
    first
      | exact headingLoop_min h
      | exact hpara h
      | exact (wholePageSection_min h).1

/-- Witness for C3 at a concrete page. -/
theorem extract_sections_min_length_witness :
    3 ≤ (pyStrip (⟨"AB".toList, "hello world.".toList, 1⟩ : Section).content).length :=
  extract_sections_min_length 200 10 "AB\nhello world.".toList 1 3
    ⟨"AB".toList, "hello world.".toList, 1⟩ (by decide)

/-- The paragraph strategy emits a section for every qualifying
paragraph, so a qualifying paragraph makes its output non-empty. -/
theorem paraSections_ne_nil {minLen page : Nat} {ps : List (List Char)} {p : List Char}
    (hp : p ∈ ps) (hlen : minLen ≤ p.length) : paraSections minLen page ps ≠ [] := by
  apply List.ne_nil_of_mem (a := (⟨joinSpace ((pyWords p).take 8) ++
    (if 8 < (pyWords p).length then ellipsis else []), p, page⟩ : Section))
  unfold paraSections
  exact List.mem_filterMap.mpr ⟨p, hp, by rw [if_pos hlen]⟩

/-- C4: strategies are applied in fixed fallback order.  Paragraph
sections appear exactly when the heading strategy yields nothing and a
blank-line paragraph reaches `minLen` (their titles are the first 8
words with an ellipsis marker exactly when more than 8 words exist); a
single whole-page section appears exactly when both earlier strategies
yield nothing and the trimmed page text reaches `minLen`. -/
theorem extract_fallback_order (maxHL maxHW : Nat) (text : List Char) (page minLen : Nat) :
    (headingLoop maxHL maxHW minLen page (splitOnChar '\n' text) [] [] ≠ [] →
      extract_sections_from_text maxHL maxHW text page minLen =
        headingLoop maxHL maxHW minLen page (splitOnChar '\n' text) [] []) ∧
    (headingLoop maxHL maxHW minLen page (splitOnChar '\n' text) [] [] = [] →
      (∃ p ∈ paragraphsOf text, minLen ≤ p.length) →
      extract_sections_from_text maxHL maxHW text page minLen =
          paraSections minLen page (paragraphsOf text) ∧
        paraSections minLen page (paragraphsOf text) ≠ [] ∧
        ∀ sec ∈ paraSections minLen page (paragraphsOf text),
          ∃ p ∈ paragraphsOf text, minLen ≤ p.length ∧ sec.content = p ∧
            sec.title = joinSpace ((pyWords p).take 8) ++
              (if 8 < (pyWords p).length then ellipsis else [])) ∧
    (headingLoop maxHL maxHW minLen page (splitOnChar '\n' text) [] [] = [] →
      paraSections minLen page (paragraphsOf text) = [] →
      minLen ≤ (pyStrip text).length →
      extract_sections_from_text maxHL maxHW text page minLen =
          wholePageSection minLen page text ∧
        (wholePageSection minLen page text).length = 1) ∧
    (headingLoop maxHL maxHW minLen page (splitOnChar '\n' text) [] [] = [] →
      paraSections minLen page (paragraphsOf text) = [] →
      (pyStrip text).length < minLen →
      extract_sections_from_text maxHL maxHW text page minLen = []) ∧
    (paraSections minLen page (paragraphsOf text) = [] ↔
      ∀ p ∈ paragraphsOf text, p.length < minLen) := by
  refine ⟨?_, ?_, ?_, ?_, ?_⟩
  · intro h1
    have hc1 : ¬(headingLoop maxHL maxHW minLen page (splitOnChar '\n' text) [] [] = [] ∧
        paragraphsOf text ≠ []) := fun hc => h1 hc.1
    simp only [extract_sections_from_text]
    rw [if_neg hc1, if_neg h1]
  · intro h1 hex
    obtain ⟨p, hp, hlen⟩ := hex
    have hpne : paraSections minLen page (paragraphsOf text) ≠ [] :=
      paraSections_ne_nil hp hlen
    have hc1 : headingLoop maxHL maxHW minLen page (splitOnChar '\n' text) [] [] = [] ∧
        paragraphsOf text ≠ [] := ⟨h1, List.ne_nil_of_mem hp⟩
    have hres : extract_sections_from_text maxHL maxHW text page minLen =
        paraSections minLen page (paragraphsOf text) := by
      simp only [extract_sections_from_text]
      rw [if_pos hc1, h1, List.nil_append, if_neg hpne]
    exact ⟨hres, hpne, fun sec hs => paraSections_min hs⟩
  · intro h1 h2 h3
    have hs2 : (if headingLoop maxHL maxHW minLen page (splitOnChar '\n' text) [] [] = [] ∧
        paragraphsOf text ≠ [] then
          headingLoop maxHL maxHW minLen page (splitOnChar '\n' text) [] [] ++
            paraSections minLen page (paragraphsOf text)
        else headingLoop maxHL maxHW minLen page (splitOnChar '\n' text) [] []) = [] := by
      split_ifs
      · rw [h1, h2]
        rfl
      · exact h1
    constructor
    · simp only [extract_sections_from_text]
      rw [hs2, if_pos rfl, List.nil_append]
    · unfold wholePageSection
      rw [if_pos h3]
      rfl
  · intro h1 h2 h3
    have hs2 : (if headingLoop maxHL maxHW minLen page (splitOnChar '\n' text) [] [] = [] ∧
        paragraphsOf text ≠ [] then
          headingLoop maxHL maxHW minLen page (splitOnChar '\n' text) [] [] ++
            paraSections minLen page (paragraphsOf text)
        else headingLoop maxHL maxHW minLen page (splitOnChar '\n' text) [] []) = [] := by
      split_ifs
      · rw [h1, h2]
        rfl
      · exact h1
    simp only [extract_sections_from_text]
    rw [hs2, if_pos rfl, List.nil_append]
    unfold wholePageSection
    rw [if_neg (by omega)]
  · unfold paraSections
    rw [List.filterMap_eq_nil_iff]
    constructor
    · intro hall p hp
      have := hall p hp
      by_cases hlen : minLen ≤ p.length
      · rw [if_pos hlen] at this
        exact absurd this (Option.noConfusion)
      · omega
    · intro hall p hp
      rw [if_neg (by have := hall p hp; omega)]

/-- Witness for C4 on a concrete two-paragraph page with no headings. -/
theorem extract_fallback_order_witness :
    extract_sections_from_text 200 10
        "some lower text. here.\n\nanother paragraph! also long.".toList 1 5 =
      paraSections 5 1
        (paragraphsOf "some lower text. here.\n\nanother paragraph! also long.".toList) ∧
    paraSections 5 1
      (paragraphsOf "some lower text. here.\n\nanother paragraph! also long.".toList) ≠ [] := by
  have h := (extract_fallback_order 200 10
      "some lower text. here.\n\nanother paragraph! also long.".toList 1 5).2.1
    (by decide)
    ⟨"some lower text. here.".toList, by decide, by decide⟩
  exact ⟨h.1, h.2.1⟩

/-- Every index assigned by the filtering loop is at least the running
counter. -/
theorem buildScored_index_ge {minSim : ℚ} :
    ∀ {i : Nat} {l : List (DocSection × ℚ)} {x : ScoredSection},
      x ∈ buildScored minSim i l → i ≤ x.index := by
  intro i l
  induction l generalizing i with
  | nil => intro x h; simp [buildScored] at h
  | cons p rest ih =>
    intro x h
    obtain ⟨s, q⟩ := p
    simp only [buildScored] at h
    split_ifs at h with hq
    · rcases List.mem_cons.mp h with rfl | hm
      · exact Nat.le_refl _
      · exact Nat.le_of_succ_le (ih hm)
    · exact Nat.le_of_succ_le (ih h)

/-- The filtering loop assigns strictly increasing indices. -/
theorem buildScored_pairwise_index {minSim : ℚ} :
    ∀ {i : Nat} {l : List (DocSection × ℚ)},
      (buildScored minSim i l).Pairwise fun a b => a.index < b.index := by
  intro i l
  induction l generalizing i with
  | nil => exact List.Pairwise.nil
  | cons p rest ih =>
    obtain ⟨s, q⟩ := p
    simp only [buildScored]
    split_ifs with hq
    · exact List.Pairwise.cons (fun y hy => buildScored_index_ge hy) ih
    · exact ih

/-- Every record kept by the filtering loop cleared the threshold. -/
theorem buildScored_sim_ge {minSim : ℚ} :
    ∀ {i : Nat} {l : List (DocSection × ℚ)} {x : ScoredSection},
      x ∈ buildScored minSim i l → minSim ≤ x.similarity := by
  intro i l
  induction l generalizing i with
  | nil => intro x h; simp [buildScored] at h
  | cons p rest ih =>
    intro x h
    obtain ⟨s, q⟩ := p
    simp only [buildScored] at h
    split_ifs at h with hq
    · rcases List.mem_cons.mp h with rfl | hm
      · exact hq
      · exact ih hm
    · exact ih h

/-- A pair at position `j` whose similarity clears the threshold is
retained by the filtering loop, with index `i + j`. -/
theorem buildScored_mem_of_get {minSim : ℚ} :
    ∀ {l : List (DocSection × ℚ)} {i j : Nat} {s : DocSection} {q : ℚ},
      l[j]? = some (s, q) → minSim ≤ q →
      (⟨s, q, i + j⟩ : ScoredSection) ∈ buildScored minSim i l := by
  intro l
  induction l with
  | nil => intro i j s q hj _; simp at hj
  | cons p rest ih =>
    intro i j s q hj hq
    obtain ⟨s0, q0⟩ := p
    cases j with
    | zero =>
      simp only [List.getElem?_cons_zero, Option.some.injEq, Prod.mk.injEq] at hj
      obtain ⟨rfl, rfl⟩ := hj
      simp only [buildScored, if_pos hq]
      exact List.mem_cons_self _ _
    | succ j' =>
      rw [List.getElem?_cons_succ] at hj
      have hm := ih (i := i + 1) hj hq
      have harith : i + 1 + j' = i + (j' + 1) := by omega
      rw [harith] at hm
      simp only [buildScored]
      split_ifs
      · exact List.mem_cons_of_mem _ hm
      · exact hm

/-- The descending-similarity comparator is transitive. -/
theorem simDesc_trans : ∀ (a b c : ScoredSection), simDesc a b → simDesc b c → simDesc a c := by
  intro a b c hab hbc
  simp only [simDesc, decide_eq_true_eq] at *
  exact le_trans hbc hab

/-- The descending-similarity comparator is total. -/
theorem simDesc_total : ∀ (a b : ScoredSection), simDesc a b || simDesc b a := by
  intro a b
  simp only [simDesc, Bool.or_eq_true, decide_eq_true_eq]
  exact le_total b.similarity a.similarity

/-- Two distinct members of a list form a pair sublist in one order or
the other. -/
theorem pair_sublist_of_mem {α : Type} {l : List α} {a b : α}
    (ha : a ∈ l) (hb : b ∈ l) (hne : a ≠ b) :
    List.Sublist [a, b] l ∨ List.Sublist [b, a] l := by
  induction l with
  | nil => simp at ha
  | cons c t ih =>
    rcases List.mem_cons.mp ha with rfl | hat
    · rcases List.mem_cons.mp hb with rfl | hbt
      · exact absurd rfl hne
      · exact Or.inl (List.cons_sublist_cons.mpr (List.singleton_sublist.mpr hbt))
    · rcases List.mem_cons.mp hb with rfl | hbt
      · exact Or.inr (List.cons_sublist_cons.mpr (List.singleton_sublist.mpr hat))
      · rcases ih hat hbt with h | h
        · exact Or.inl (h.cons c)
        · exact Or.inr (h.cons c)

/-- In a duplicate-free list the two orders of a pair sublist are
mutually exclusive. -/
theorem not_pair_sublist_both {α : Type} {l : List α} {a b : α}
    (hnd : l.Nodup) (hne : a ≠ b)
    (h1 : List.Sublist [a, b] l) (h2 : List.Sublist [b, a] l) : False := by
  induction l with
  | nil => exact absurd (List.sublist_nil.mp h1) (by simp)
  | cons c t ih =>
    rcases List.nodup_cons.mp hnd with ⟨hct, hnt⟩
    cases h1 with
    | cons _ h1t =>
      cases h2 with
      | cons _ h2t => exact ih hnt h1t h2t
      | cons₂ h2t => exact hct (h1t.subset (by simp))
    | cons₂ h1t =>
      cases h2 with
      | cons _ h2t => exact hct (h2t.subset (by simp))
      | cons₂ h2t => exact hne rfl

/-- C2: the similarity filter is inclusive: no result entry scores
below the threshold, and a section scoring exactly the threshold is
retained by the filter. -/
theorem threshold_inclusive (task : List Char) (sections : List DocSection)
    (sims : List ℚ) (topN : Nat) (minSim : ℚ) :
    (∀ x ∈ find_relevant_sections task sections sims topN minSim,
      minSim ≤ x.similarity) ∧
    (∀ j s q, (sections.zip sims)[j]? = some (s, q) → q = minSim →
      (⟨s, q, j⟩ : ScoredSection) ∈ buildScored minSim 0 (sections.zip sims)) := by
  constructor
  · intro x hx
    by_cases hne : sections = []
    · unfold find_relevant_sections at hx
      rw [if_pos hne] at hx
      simp at hx
    · unfold find_relevant_sections at hx
      rw [if_neg hne] at hx
      have hx2 : x ∈ (buildScored minSim 0 (sections.zip sims)).mergeSort simDesc :=
        List.mem_of_mem_take hx
      have hx3 : x ∈ buildScored minSim 0 (sections.zip sims) :=
        (List.mergeSort_perm _ simDesc).mem_iff.mp hx2
      exact buildScored_sim_ge hx3
  · intro j s q hj hq
    have hm : (⟨s, q, 0 + j⟩ : ScoredSection) ∈ buildScored minSim 0 (sections.zip sims) :=
      buildScored_mem_of_get hj (le_of_eq hq.symm)
    simpa using hm

/-- Witness for C2: one section scoring exactly the default threshold
is retained. -/
theorem threshold_inclusive_witness :
    ((([⟨[], [], 1, []⟩] : List DocSection).zip [(1 : ℚ)/10])[0]? =
        some (⟨[], [], 1, []⟩, (1 : ℚ)/10)) ∧
    (⟨⟨[], [], 1, []⟩, (1 : ℚ)/10, 0⟩ : ScoredSection) ∈
      buildScored ((1 : ℚ)/10) 0 (([⟨[], [], 1, []⟩] : List DocSection).zip [(1 : ℚ)/10]) :=
  ⟨rfl, (threshold_inclusive [] [⟨[], [], 1, []⟩] [(1 : ℚ)/10] 5 ((1 : ℚ)/10)).2
    0 ⟨[], [], 1, []⟩ ((1 : ℚ)/10) rfl rfl⟩

/-- C6 counterexample: on an empty section pool the result is empty,
but the encoder event trace is not empty — the SentenceTransformer
model is constructed before the empty-pool check. -/
theorem empty_pool_model_constructed :
    find_relevant_sections "task".toList [] [] 5 ((1 : ℚ)/10) = [] ∧
    find_relevant_sections_events "all-MiniLM-L6-v2".toList "task".toList [] ≠ [] := by
  constructor
  · rfl
  · simp [find_relevant_sections_events]

/-- C6 amended: with an empty pool, `find_relevant_sections` returns
empty with no encode invocation; the model-construction event alone
occurs, before the empty check. -/
theorem empty_pool_no_encode (modelName task : List Char) (sims : List ℚ)
    (topN : Nat) (minSim : ℚ) :
    find_relevant_sections task [] sims topN minSim = [] ∧
    find_relevant_sections_events modelName task [] =
      [EncoderEvent.modelLoad modelName] := by
  constructor
  · rfl
  · rfl

/-- C1: on a non-empty pool the ranking is sorted non-increasing by
similarity with ties broken by ascending pool index, has at most `topN`
entries (exactly `topN` when at least `topN` sections clear the
threshold), and every excluded threshold-clearing section scores no
higher than any returned one. -/
theorem ranking_sorted_bounded (task : List Char) (sections : List DocSection)
    (sims : List ℚ) (topN : Nat) (minSim : ℚ) (hne : sections ≠ []) :
    (find_relevant_sections task sections sims topN minSim).length ≤ topN ∧
    (find_relevant_sections task sections sims topN minSim).Pairwise
      (fun a b => b.similarity ≤ a.similarity ∧
        (a.similarity = b.similarity → a.index < b.index)) ∧
    (topN ≤ (buildScored minSim 0 (sections.zip sims)).length →
      (find_relevant_sections task sections sims topN minSim).length = topN) ∧
    (∀ x ∈ find_relevant_sections task sections sims topN minSim,
      ∀ y ∈ buildScored minSim 0 (sections.zip sims),
        y ∉ find_relevant_sections task sections sims topN minSim →
          y.similarity ≤ x.similarity) := by
  have hres : find_relevant_sections task sections sims topN minSim =
      ((buildScored minSim 0 (sections.zip sims)).mergeSort simDesc).take topN := by
    unfold find_relevant_sections
    rw [if_neg hne]
  set F := buildScored minSim 0 (sections.zip sims) with hF
  set S := F.mergeSort simDesc with hS
  have hperm : S.Perm F := List.mergeSort_perm F simDesc
  have hFpw : F.Pairwise fun a b => a.index < b.index := buildScored_pairwise_index
  have hFnd : F.Nodup := hFpw.imp fun h he => absurd (he ▸ h) (lt_irrefl _)
  have hSnd : S.Nodup := hperm.nodup_iff.mpr hFnd
  have hSsorted : S.Pairwise fun a b => simDesc a b :=
    List.sorted_mergeSort simDesc_trans simDesc_total F
  have htie : S.Pairwise fun a b => a.similarity = b.similarity → a.index < b.index := by
    rw [List.pairwise_iff_forall_sublist]
    intro a b hab heq
    have hmemA : a ∈ F := hperm.mem_iff.mp (hab.subset (by simp))
    have hmemB : b ∈ F := hperm.mem_iff.mp (hab.subset (by simp))
    have hab' : a ≠ b := by
      intro he
      subst he
      exact List.pairwise_iff_forall_sublist.mp hSnd hab rfl
    rcases Nat.lt_trichotomy a.index b.index with h | h | h
    · exact h
    · exfalso
      rcases pair_sublist_of_mem hmemA hmemB hab' with hs | hs
      · have := List.pairwise_iff_forall_sublist.mp hFpw hs
        omega
      · have := List.pairwise_iff_forall_sublist.mp hFpw hs
        omega
    · exfalso
      rcases pair_sublist_of_mem hmemA hmemB hab' with hs | hs
      · have := List.pairwise_iff_forall_sublist.mp hFpw hs
        omega
      · have hba : simDesc b a := by
          simp [simDesc, heq]
        have hbaS : List.Sublist [b, a] S :=
          List.pair_sublist_mergeSort simDesc_trans simDesc_total hba hs
        exact not_pair_sublist_both hSnd hab' hab hbaS
  refine ⟨?_, ?_, ?_, ?_⟩
  · rw [hres, List.length_take]
    exact min_le_left _ _
  · rw [hres]
    rw [List.pairwise_iff_forall_sublist]
    intro a b hab
    have habS : List.Sublist [a, b] S := hab.trans (List.take_sublist _ _)
    constructor
    · have := List.pairwise_iff_forall_sublist.mp hSsorted habS
      simpa [simDesc] using this
    · exact List.pairwise_iff_forall_sublist.mp htie habS
  · intro hlen
    rw [hres, List.length_take]
    have hl : S.length = F.length := hperm.length_eq
    omega
  · intro x hx y hy hyn
    rw [hres] at hx hyn
    have hyS : y ∈ S := hperm.mem_iff.mpr hy
    have hsplit : y ∈ S.take topN ++ S.drop topN := by
      rw [List.take_append_drop]
      exact hyS
    rcases List.mem_append.mp hsplit with h | h
    · exact absurd h hyn
    · have hpw := hSsorted
      rw [← List.take_append_drop topN S] at hpw
      have hcross := (List.pairwise_append.mp hpw).2.2 x hx y h
      simpa [simDesc] using hcross

/-- Witness for C1 at a concrete two-section pool. -/
theorem ranking_sorted_bounded_witness :
    ([⟨[], [], 1, []⟩, ⟨[], [], 2, []⟩] : List DocSection) ≠ [] ∧
    (find_relevant_sections [] [⟨[], [], 1, []⟩, ⟨[], [], 2, []⟩]
      [(1 : ℚ), 2] 1 0).length ≤ 1 :=
  ⟨by simp, (ranking_sorted_bounded [] [⟨[], [], 1, []⟩, ⟨[], [], 2, []⟩]
    [(1 : ℚ), 2] 1 0 (by simp)).1⟩

/-- C5: the two report lists are aligned: equal lengths, position `i`
of each is built from the same underlying scored section (so document
and page number agree), and `importance_rank` at position `i` is
`i + 1`. -/
theorem report_alignment (maxRefinedLength : Nat) (input : InputData)
    (relevant : List ScoredSection) (now : List Char) :
    (create_output_json maxRefinedLength input relevant now).extracted_sections.length =
      (create_output_json maxRefinedLength input relevant now).subsection_analysis.length ∧
    ∀ (i : Nat) (item : ScoredSection), relevant[i]? = some item →
      (create_output_json maxRefinedLength input relevant now).extracted_sections[i]? =
        some (⟨item.sec.document, item.sec.title, i + 1, item.sec.page_number⟩ :
          ExtractedEntry) ∧
      (create_output_json maxRefinedLength input relevant now).subsection_analysis[i]? =
        some (⟨item.sec.document, refinedTransform maxRefinedLength item.sec.content,
          item.sec.page_number⟩ : AnalysisEntry) := by
  constructor
  · simp [create_output_json]
  · intro i item hi
    constructor
    · simp [create_output_json, List.getElem?_map, List.getElem?_enum, hi]
    · simp [create_output_json, List.getElem?_map, hi]

/-- Witness for C5 on a one-entry report. -/
theorem report_alignment_witness :
    ([(⟨⟨[], [], 1, []⟩, 1, 0⟩ : ScoredSection)] : List ScoredSection)[0]? =
        some ⟨⟨[], [], 1, []⟩, 1, 0⟩ ∧
    (create_output_json 1000 ⟨[], [], [], none⟩
        [⟨⟨[], [], 1, []⟩, 1, 0⟩] []).extracted_sections[0]? =
      some ⟨[], [], 1, 1⟩ :=
  ⟨rfl, ((report_alignment 1000 ⟨[], [], [], none⟩
    [⟨⟨[], [], 1, []⟩, 1, 0⟩] []).2 0 ⟨⟨[], [], 1, []⟩, 1, 0⟩ rfl).1⟩

/-- C7: `refined_text` is the hard character cut of the content, then
stripped, then whitespace-collapsed — truncation happens before
collapsing, and the trailing character of the stripped cut (the
trailing partial word fragment of a word split by the cut) survives to
the output. -/
theorem refined_truncate_before_collapse (maxRefinedLength : Nat) (input : InputData)
    (relevant : List ScoredSection) (now : List Char) :
    (∀ (i : Nat) (item : ScoredSection), relevant[i]? = some item →
      (create_output_json maxRefinedLength input relevant now).subsection_analysis[i]? =
        some (⟨item.sec.document,
          collapseWs (pyStrip (item.sec.content.take maxRefinedLength)),
          item.sec.page_number⟩ : AnalysisEntry)) ∧
    (∀ content c, (pyStrip (content.take maxRefinedLength)).getLast? = some c →
      (refinedTransform maxRefinedLength content).getLast? = some c) := by
  constructor
  · intro i item hi
    simp [create_output_json, List.getElem?_map, hi, refinedTransform]
  · intro content c hc
    exact collapseWs_getLast hc (pyStrip_getLast_not_ws hc)

/-- Witness for C7: a cut inside the word `cde` keeps the fragment
character `c` at the end of the refined text. -/
theorem refined_truncate_before_collapse_witness :
    (pyStrip ("ab cde".toList.take 4)).getLast? = some 'c' ∧
    (refinedTransform 4 "ab cde".toList).getLast? = some 'c' :=
  ⟨by decide, (refined_truncate_before_collapse 4 ⟨[], [], [], none⟩ [] []).2
    "ab cde".toList 'c' (by decide)⟩

/-- C8 counterexample: the string consisting of a space then `a` is at
most the configured maximum length and is a fixed point of whitespace
collapsing, yet the refined-text transform changes it (the transform
also strips, which the claim does not account for). -/
theorem refined_idempotent_counterexample :
    (([' ', 'a'] : List Char).length ≤ MAX_REFINED_TEXT_LENGTH ∧
      collapseWs [' ', 'a'] = [' ', 'a']) ∧
    refinedTransform MAX_REFINED_TEXT_LENGTH [' ', 'a'] ≠ [' ', 'a'] := by
  have ht : ([' ', 'a'] : List Char).take MAX_REFINED_TEXT_LENGTH = [' ', 'a'] :=
    List.take_of_length_le (by simp [MAX_REFINED_TEXT_LENGTH])
  have hs : pyStrip [' ', 'a'] = ['a'] := by decide
  have hr : refinedTransform MAX_REFINED_TEXT_LENGTH [' ', 'a'] = ['a'] := by
    rw [refinedTransform, ht, hs]
    simp [collapseWs, isWs]
  refine ⟨⟨by simp [MAX_REFINED_TEXT_LENGTH], ?_⟩, ?_⟩
  · simp [collapseWs, isWs]
  · rw [hr]
    simp

/-- C8 amended: the refined-text transform is the identity on strings
that are at most the maximum length, whitespace-collapsed, and also
stripped of edge whitespace (as every output of the transform is); on
such strings applying the transform again changes nothing. -/
theorem refined_idempotent_on_cleaned (maxLen : Nat) (s : List Char)
    (h1 : s.length ≤ maxLen) (h2 : collapseWs s = s) (h3 : pyStrip s = s) :
    refinedTransform maxLen s = s := by
  unfold refinedTransform
  rw [List.take_of_length_le h1, h3, h2]

/-- Witness for C8 on the cleaned string `a b`. -/
theorem refined_idempotent_on_cleaned_witness :
    (("a b".toList.length ≤ MAX_REFINED_TEXT_LENGTH ∧
        collapseWs "a b".toList = "a b".toList ∧ pyStrip "a b".toList = "a b".toList) ∧
      refinedTransform MAX_REFINED_TEXT_LENGTH "a b".toList = "a b".toList) :=
  ⟨⟨by simp [MAX_REFINED_TEXT_LENGTH], by simp [collapseWs, isWs], by decide⟩,
    refined_idempotent_on_cleaned MAX_REFINED_TEXT_LENGTH "a b".toList
      (by simp [MAX_REFINED_TEXT_LENGTH]) (by simp [collapseWs, isWs]) (by decide)⟩

/-- The refined-text transform never leaves edge whitespace: the strip
happens after the cut and before collapsing, and collapsing preserves
non-whitespace edges. -/
theorem pyStrip_refinedTransform (maxLen : Nat) (content : List Char) :
    pyStrip (refinedTransform maxLen content) = refinedTransform maxLen content := by
  unfold refinedTransform
  cases hu : pyStrip (content.take maxLen) with
  | nil => simp [collapseWs, pyStrip]
  | cons a t =>
    have ha : isWs a = false := pyStrip_head_not_ws (s := content.take maxLen) (by rw [hu]; rfl)
    obtain ⟨b, hb⟩ := Option.isSome_iff_exists.mp
      (List.getLast?_isSome.mpr (List.cons_ne_nil a t))
    have hbws : isWs b = false := pyStrip_getLast_not_ws (s := content.take maxLen) (by rw [hu]; exact hb)
    apply pyStrip_eq_self
    · intro c hc
      rw [collapseWs_head (s := a :: t) rfl ha] at hc
      obtain rfl := Option.some.inj hc
      exact ha
    · intro c hc
      rw [collapseWs_getLast hb hbws] at hc
      obtain rfl := Option.some.inj hc
      exact hbws

/-- C10: every `refined_text` in the report has no leading or trailing
whitespace: stripping it changes nothing, even when the character cut
lands inside a whitespace run. -/
theorem report_refined_no_edge_ws (maxRefinedLength : Nat) (input : InputData)
    (relevant : List ScoredSection) (now : List Char) :
    ∀ (i : Nat) (entry : AnalysisEntry),
      (create_output_json maxRefinedLength input relevant now).subsection_analysis[i]? =
        some entry →
      pyStrip entry.refined_text = entry.refined_text := by
  intro i entry he
  simp only [create_output_json, List.getElem?_map, Option.map_eq_some'] at he
  obtain ⟨item, _, rfl⟩ := he
  exact pyStrip_refinedTransform maxRefinedLength item.sec.content

/-- Witness for C10 on a content whose cut lands in whitespace. -/
theorem report_refined_no_edge_ws_witness :
    (create_output_json 4 ⟨[], [], [], none⟩
        [⟨⟨[], "ab  cd".toList, 1, []⟩, 1, 0⟩] []).subsection_analysis[0]? =
      some ⟨[], refinedTransform 4 "ab  cd".toList, 1⟩ ∧
    pyStrip (refinedTransform 4 "ab  cd".toList) = refinedTransform 4 "ab  cd".toList :=
  ⟨rfl, report_refined_no_edge_ws 4 ⟨[], [], [], none⟩
    [⟨⟨[], "ab  cd".toList, 1, []⟩, 1, 0⟩] [] 0 ⟨[], refinedTransform 4 "ab  cd".toList, 1⟩ rfl⟩

end PDFAnalyzer
